import Mathlib

/-!
Verification of the StSPumpkinEater statistics core.

Shallow embedding of the Python modules `models/card.py`, `models/deck.py`,
`models/game_state.py`, `models/relic.py`, `stats/probability.py` and
`stats/simulator.py`.  Conventions:
* Python `int` values are modelled as `ℤ` (or `ℕ` where the value is a count
  that the code only ever treats as such), Python `float` arithmetic is
  modelled exactly as `ℚ`.
* Dynamically typed effect values (`dict[str, Any]`) are modelled by the
  inductive type `EffVal`; a Python `dict` is an association list in which
  each key occurs at most once (lookup takes the first binding).
* `random.shuffle` is modelled by an explicitly passed reordering function
  `f : List Card → List Card` together with the predicate `IsShuffle f`
  stating that `f` permutes its input, which is the sole guarantee
  `random.shuffle` gives.
-/

namespace StS

/-- `CardType` enumeration from `models/card.py`. -/
inductive CardType where
  | attack | skill | power | status | curse
deriving DecidableEq, Repr

/-- `Character` enumeration from `models/card.py`. -/
inductive Character where
  | ironclad | silent | defect | watcher | colorless | neutral
deriving DecidableEq, Repr

/-- A dynamically typed Python value stored in an `effects` dict.
`vbool` is kept distinct because Python's `bool` is an `int` subtype:
`isinstance(True, int)` is true and `True` adds as `1`. -/
inductive EffVal where
  | vint (i : ℤ)
  | vfloat (q : ℚ)
  | vbool (b : Bool)
  | vstr (s : String)
deriving DecidableEq, Repr

namespace EffVal

/-- Python `isinstance(v, (int, float))` (`bool` is a subtype of `int`). -/
def isNum : EffVal → Bool
  | vint _ => true
  | vfloat _ => true
  | vbool _ => true
  | vstr _ => false

/-- Numeric value of an effect entry, as used in arithmetic contexts. -/
def numVal : EffVal → ℚ
  | vint i => (i : ℚ)
  | vfloat q => q
  | vbool b => if b then 1 else 0
  | vstr _ => 0

/-- Python `isinstance(v, int)` (true for `bool`, false for `float`). -/
def isPyInt : EffVal → Bool
  | vint _ => true
  | vbool _ => true
  | _ => false

/-- The integer an `int`-typed value denotes (used after an `isPyInt` check). -/
def intVal : EffVal → ℤ
  | vint i => i
  | vbool b => if b then 1 else 0
  | _ => 0

/-- Python truthiness of an effect value. -/
def truthy : EffVal → Bool
  | vint i => i ≠ 0
  | vfloat q => q ≠ 0
  | vbool b => b
  | vstr s => s ≠ ""

end EffVal

/-- A Python `dict[str, Any]` of effects: an association list with unique keys;
lookup takes the first binding. -/
abbrev Effects := List (String × EffVal)

/-- Python `e.get(k, default)`. -/
def getEff (e : Effects) (k : String) (dflt : EffVal) : EffVal :=
  match e.find? (fun p => p.1 = k) with
  | some p => p.2
  | none => dflt

/-- Python `k in e`. -/
def hasKey (e : Effects) (k : String) : Bool :=
  (e.find? (fun p => p.1 = k)).isSome

/-- Card from `models/card.py`.  Fields not read by any function under
verification (`rarity`, the descriptions, upgrade data, keywords) are
omitted.  Python `Card.__eq__` compares `(name, character)` only; that
key-based equality is `cardKey` below, used wherever the source relies on
`__eq__`/`__hash__` (the `Counter` in `card_counts`). -/
structure Card where
  name : String
  card_type : CardType
  character : Character := Character.neutral
  cost : ℤ := 0
  effects : Effects := []
deriving DecidableEq, Repr

/-- The semantic identity of a card: Python `Card.__eq__`/`__hash__` key. -/
def cardKey (c : Card) : String × Character := (c.name, c.character)

/-- Deck from `models/deck.py`: three ordered piles. -/
structure Deck where
  draw_pile : List Card := []
  discard_pile : List Card := []
  hand : List Card := []
deriving DecidableEq, Repr

namespace Deck

/-- `Deck.total_cards`: `len(draw) + len(discard) + len(hand)`. -/
def total_cards (d : Deck) : ℕ :=
  d.draw_pile.length + d.discard_pile.length + d.hand.length

/-- The concatenation `self._draw_pile + self._discard_pile + self._hand`
iterated over by `card_counts` (and `__iter__`). -/
def allCards (d : Deck) : List Card :=
  d.draw_pile ++ d.discard_pile ++ d.hand

/-- Number of cards in `l` equal (in the `Card.__eq__` sense) to `t`:
the multiplicity `Counter(l)[t]`. -/
def countKey (l : List Card) (t : Card) : ℕ :=
  l.countP (fun x => decide (cardKey x = cardKey t))

/-- First occurrences of each distinct card key, in order: the key sequence
of `Counter(l)` (a Python dict keeps the first-inserted key object). -/
def dedupByKey : List Card → List Card
  | [] => []
  | c :: rest => c :: (dedupByKey rest).filter (fun x => decide (cardKey x ≠ cardKey c))

/-- `Deck.card_counts`: `Counter(draw + discard + hand)` as an association
list from representative card (first occurrence) to multiplicity, in
first-occurrence order. -/
def card_counts (d : Deck) : List (Card × ℕ) :=
  (dedupByKey d.allCards).map (fun c => (c, countKey d.allCards c))

/-- `counter.get(target, 0)`: dict lookup by the `Card.__eq__` key. -/
def lookupCount (counts : List (Card × ℕ)) (t : Card) : ℕ :=
  match counts.find? (fun p => decide (cardKey p.1 = cardKey t)) with
  | some p => p.2
  | none => 0

end Deck

open Deck

/-- `draw_probability` from `stats/probability.py`.  `draw_count` is the
number of cards drawn (a count, hence `ℕ`). -/
def draw_probability (deck : Deck) (target : Card) (draw_count : ℕ) : ℚ :=
  let total := deck.total_cards
  let copies := lookupCount deck.card_counts target
  if copies = 0 ∨ draw_count = 0 then 0
  else if draw_count ≥ total then 1
  else 1 - ((total - copies).choose draw_count : ℚ) / (total.choose draw_count : ℚ)

/-- Modelled from the spec's words (for the refinement claim about
`draw_probability`): "If `K = 0` or `drawCount = 0`, result is 0.  If
`drawCount ≥ N`, result is 1.  Otherwise `P = 1 − C(N−K, drawCount) /
C(N, drawCount)`", with `N` the total card count and `K` the number of
copies of the target. -/
def drawProbabilitySpec (N K n : ℕ) : ℚ :=
  if K = 0 ∨ n = 0 then 0
  else if n ≥ N then 1
  else 1 - ((N - K).choose n : ℚ) / (N.choose n : ℚ)

namespace Deck

theorem total_cards_eq_length_allCards (d : Deck) :
    d.total_cards = d.allCards.length := by
  simp [total_cards, allCards]
  omega

theorem countKey_le_length (l : List Card) (t : Card) : countKey l t ≤ l.length :=
  List.countP_le_length _

/-- Every key occurring in `l` has a representative in `dedupByKey l`. -/
theorem exists_rep_of_mem {l : List Card} {x : Card} (hx : x ∈ l) :
    ∃ y ∈ dedupByKey l, cardKey y = cardKey x := by
  induction l with
  | nil => cases hx
  | cons c rest ih =>
    rcases List.mem_cons.mp hx with hx0 | hx'
    · exact ⟨c, List.mem_cons_self _ _, by rw [hx0]⟩
    · rcases ih hx' with ⟨y, hy, hkey⟩
      by_cases hyc : cardKey y = cardKey c
      · exact ⟨c, List.mem_cons_self _ _, by rw [← hyc, hkey]⟩
      · refine ⟨y, ?_, hkey⟩
        simp only [dedupByKey, List.mem_cons, List.mem_filter]
        exact Or.inr ⟨hy, by simpa using hyc⟩

/-- `find?` over the counts map mirrors `find?` over the underlying cards. -/
theorem find?_counts_map (all : List Card) (t : Card) (L : List Card) :
    (L.map (fun x => (x, countKey all x))).find?
        (fun p => decide (cardKey p.1 = cardKey t))
      = (L.find? (fun x => decide (cardKey x = cardKey t))).map
          (fun x => (x, countKey all x)) := by
  induction L with
  | nil => rfl
  | cons a L ih =>
    by_cases h : cardKey a = cardKey t
    · simp [List.find?_cons, h]
    · simp [List.find?_cons, h, ih]

/-- Lookup in the counts map agrees with direct multiplicity counting. -/
theorem lookupCount_card_counts (d : Deck) (t : Card) :
    lookupCount d.card_counts t = countKey d.allCards t := by
  unfold card_counts lookupCount
  rw [find?_counts_map]
  rcases hf : (dedupByKey d.allCards).find? (fun x => decide (cardKey x = cardKey t))
    with _ | c
  · simp only [Option.map_none']
    have hall : ∀ x ∈ dedupByKey d.allCards, ¬ cardKey x = cardKey t := by
      intro x hx
      have := List.find?_eq_none.mp hf x hx
      simpa using this
    have hzero : countKey d.allCards t = 0 := by
      unfold countKey
      rw [List.countP_eq_zero]
      intro x hx
      rcases exists_rep_of_mem hx with ⟨y, hy, hkey⟩
      simp only [decide_eq_true_eq]
      intro hxt
      exact hall y hy (hkey.trans hxt)
    exact hzero.symm
  · simp only [Option.map_some']
    have hkey : cardKey c = cardKey t := by
      have := List.find?_some hf
      simpa using this
    show countKey d.allCards c = countKey d.allCards t
    unfold countKey
    rw [hkey]

end Deck

/-- `draw_probability` equals the spec formula on the deck's composition. -/
theorem draw_probability_eq_spec (d : Deck) (t : Card) (n : ℕ) :
    draw_probability d t n
      = drawProbabilitySpec d.total_cards (countKey d.allCards t) n := by
  unfold draw_probability drawProbabilitySpec
  rw [lookupCount_card_counts]

/-- `C1`: `draw_probability` returns 0 if `K = 0` or `drawCount = 0`,
otherwise 1 if `drawCount ≥ N`, otherwise `1 − C(N−K, drawCount)/C(N, drawCount)`
where `N` is the deck's total card count and `K` the number of copies of the
target in the deck. -/
theorem C1_draw_probability_formula (d : Deck) (t : Card) (n : ℕ) :
    draw_probability d t n
      = drawProbabilitySpec d.total_cards (countKey d.allCards t) n :=
  draw_probability_eq_spec d t n

/-! Sample cards and decks used as concrete inputs by witnesses and
counterexamples. -/

def strike : Card :=
  { name := "Strike", card_type := CardType.attack,
    character := Character.ironclad, cost := 1,
    effects := [("damage", EffVal.vint 6)] }

def defend : Card :=
  { name := "Defend", card_type := CardType.skill,
    character := Character.ironclad, cost := 1,
    effects := [("block", EffVal.vint 5)] }

def emptyDeck : Deck := { draw_pile := [], discard_pile := [], hand := [] }

/-- Bounds and degenerate cases of `draw_probability`, shared by the claim
theorems below. -/
theorem draw_probability_bounds (d : Deck) (t : Card) (n : ℕ) :
    0 ≤ draw_probability d t n ∧ draw_probability d t n ≤ 1 ∧
      (countKey d.allCards t = 0 → draw_probability d t n = 0) ∧
      (countKey d.allCards t ≠ 0 → d.total_cards ≤ n →
        draw_probability d t n = 1) := by
  have hKN : countKey d.allCards t ≤ d.total_cards := by
    rw [total_cards_eq_length_allCards]
    exact countKey_le_length _ _
  rw [draw_probability_eq_spec]
  set N := d.total_cards with hN
  set K := countKey d.allCards t with hK
  unfold drawProbabilitySpec
  by_cases h0 : K = 0 ∨ n = 0
  · rw [if_pos h0]
    refine ⟨le_refl 0, zero_le_one, fun _ => rfl, fun hKne hle => ?_⟩
    rcases h0 with hK0 | hn0
    · exact absurd hK0 hKne
    · exfalso
      have : N = 0 := by omega
      exact hKne (by omega)
  · rw [if_neg h0]
    push_neg at h0
    by_cases h1 : n ≥ N
    · rw [if_pos h1]
      exact ⟨zero_le_one, le_refl 1, fun hK0 => absurd hK0 h0.1, fun _ _ => rfl⟩
    · rw [if_neg h1]
      push_neg at h1
      have hposN : 0 < N.choose n := Nat.choose_pos (le_of_lt h1)
      have hposNQ : (0 : ℚ) < (N.choose n : ℚ) := by exact_mod_cast hposN
      have hle : ((N - K).choose n : ℚ) ≤ (N.choose n : ℚ) := by
        exact_mod_cast Nat.choose_le_choose n (Nat.sub_le N K)
      have hr0 : (0 : ℚ) ≤ ((N - K).choose n : ℚ) / (N.choose n : ℚ) :=
        div_nonneg (by positivity) (le_of_lt hposNQ)
      have hr1 : ((N - K).choose n : ℚ) / (N.choose n : ℚ) ≤ 1 :=
        (div_le_one hposNQ).mpr hle
      refine ⟨by linarith, by linarith, fun hK0 => absurd hK0 h0.1,
        fun _ hle' => absurd hle' (by omega)⟩

/-- `C2` counterexample: on the empty deck with `drawCount = 0` we have
`drawCount ≥ total`, yet the result is 0, not 1 (the `copies = 0` branch
wins), so "equals 1 whenever drawCount ≥ total" fails when both conditions
hold at once. -/
theorem C2_counterexample_zero_copies_and_full_draw :
    emptyDeck.total_cards ≤ 0 ∧ draw_probability emptyDeck strike 0 ≠ 1 := by
  constructor
  · rfl
  · decide

/-- `C2` (amended): `draw_probability` lies in `[0, 1]`; it equals 0 whenever
the deck holds 0 copies of the target (even if `drawCount ≥ total`); it
equals 1 whenever `drawCount ≥ total` and the deck holds at least one copy
of the target. -/
theorem C2_draw_probability_range (d : Deck) (t : Card) (n : ℕ) :
    0 ≤ draw_probability d t n ∧ draw_probability d t n ≤ 1 ∧
      (countKey d.allCards t = 0 → draw_probability d t n = 0) ∧
      (countKey d.allCards t ≠ 0 → d.total_cards ≤ n →
        draw_probability d t n = 1) :=
  draw_probability_bounds d t n

/-- Witness for `C2`: a one-card deck drawn in full hits probability 1. -/
theorem C2_range_witness :
    draw_probability { draw_pile := [strike] } strike 1 = 1 :=
  (C2_draw_probability_range { draw_pile := [strike] } strike 1).2.2.2
    (by decide) (by decide)

/-! Deck operations from `models/deck.py`.  `random.shuffle` reorders a list
in place; it is modelled by a caller-chosen reordering function `f`, and
`IsShuffle f` states the one property every outcome of `random.shuffle`
has: the output is a permutation of the input. -/

/-- `f` is a possible outcome function of `random.shuffle`. -/
def IsShuffle (f : List Card → List Card) : Prop :=
  ∀ l : List Card, (f l).Perm l

namespace Deck

/-- `Deck.shuffle`: reorder the draw pile. -/
def shuffleWith (f : List Card → List Card) (d : Deck) : Deck :=
  { d with draw_pile := f d.draw_pile }

/-- The loop body of `Deck.draw`: iterate `n` times; on an empty draw pile,
stop if the discard pile is also empty, otherwise the discard pile becomes
the draw pile (emptying the discard pile) and is shuffled; each iteration
pops the last element of the draw pile (Python `list.pop()`).  Returns
`(drawn cards in draw order, new draw pile, new discard pile)`.  The `[]`
case after `f` is unreachable when `f` is a shuffle (a permutation of a
non-empty list is non-empty). -/
def drawLoop (f : List Card → List Card) :
    ℕ → List Card → List Card → List Card × List Card × List Card
  | 0, dp, disc => ([], dp, disc)
  | _ + 1, [], [] => ([], [], [])
  | n + 1, [], e :: es =>
    match f (e :: es) with
    | [] => ([], [], [])
    | x :: xs =>
      let r := drawLoop f n (x :: xs).dropLast []
      ((x :: xs).getLast (by simp) :: r.1, r.2)
  | n + 1, c :: cs, disc =>
    let r := drawLoop f n (c :: cs).dropLast disc
    ((c :: cs).getLast (by simp) :: r.1, r.2)

/-- `Deck.draw(n)`: draw up to `n` cards (reshuffling the discard pile into
the draw pile when needed), extend the hand with them, and return them.
Total by construction: no error path exists. -/
def draw (f : List Card → List Card) (n : ℕ) (d : Deck) : List Card × Deck :=
  let r := drawLoop f n d.draw_pile d.discard_pile
  (r.1, { draw_pile := r.2.1, discard_pile := r.2.2, hand := d.hand ++ r.1 })

/-- `Deck.discard_hand`: move all hand cards to the discard pile. -/
def discard_hand (d : Deck) : Deck :=
  { draw_pile := d.draw_pile, discard_pile := d.discard_pile ++ d.hand,
    hand := [] }

/-- `Deck.add`: append a card to the draw pile. -/
def addCard (card : Card) (d : Deck) : Deck :=
  { d with draw_pile := d.draw_pile ++ [card] }

end Deck

/-- One call in a sequence of shuffle/draw/discard-hand operations; the
shuffle outcomes consumed by `shuffle` and `draw` are recorded in the
constructor. -/
inductive DeckOp where
  | shuffle (f : List Card → List Card)
  | draw (n : ℕ) (f : List Card → List Card)
  | discardHand

/-- The shuffle outcomes recorded in an operation really are permutations. -/
def DeckOp.Valid : DeckOp → Prop
  | .shuffle f => IsShuffle f
  | .draw _ f => IsShuffle f
  | .discardHand => True

/-- Execute one operation on a deck. -/
def applyOp (d : Deck) : DeckOp → Deck
  | .shuffle f => d.shuffleWith f
  | .draw n f => (Deck.draw f n d).2
  | .discardHand => d.discard_hand

/-- Execute a sequence of operations on a deck. -/
def applyOps (d : Deck) (ops : List DeckOp) : Deck :=
  ops.foldl applyOp d

/-- Length bookkeeping for the draw loop, for any length-preserving
reordering function: exactly `min n (|draw| + |discard|)` cards come out,
and the piles shrink by exactly that amount. -/
theorem drawLoop_lengths (f : List Card → List Card)
    (Hlen : ∀ l, (f l).length = l.length) :
    ∀ (n : ℕ) (dp disc : List Card),
      (Deck.drawLoop f n dp disc).1.length = min n (dp.length + disc.length) ∧
      (Deck.drawLoop f n dp disc).2.1.length
          + (Deck.drawLoop f n dp disc).2.2.length
        = (dp.length + disc.length) - min n (dp.length + disc.length) := by
  intro n
  induction n with
  | zero => intro dp disc; simp [Deck.drawLoop]
  | succ n ih =>
    intro dp disc
    match dp, disc with
    | [], [] => simp [Deck.drawLoop]
    | [], e :: es =>
      rcases hfd : f (e :: es) with _ | ⟨x, xs⟩
      · exfalso
        have := Hlen (e :: es)
        rw [hfd] at this
        simp at this
      · have hlen : xs.length = es.length := by
          have := Hlen (e :: es)
          rw [hfd] at this
          simpa using this
        have hdrop : (x :: xs).dropLast.length = es.length := by
          simp [hlen]
        have h := ih (x :: xs).dropLast []
        rw [hdrop] at h
        simp only [Deck.drawLoop, hfd, List.length_cons, List.length_nil,
          List.length_append] at h ⊢
        have hmin : min n es.length ≤ es.length := Nat.min_le_right _ _
        refine ⟨?_, ?_⟩
        · rw [h.1]
          omega
        · rw [h.2]
          omega
    | c :: cs, disc =>
      have h := ih (c :: cs).dropLast disc
      have hdrop : (c :: cs).dropLast.length = cs.length := by simp
      rw [hdrop] at h
      simp only [Deck.drawLoop, List.length_cons] at h ⊢
      have hmin : min n (cs.length + disc.length) ≤ cs.length + disc.length :=
        Nat.min_le_right _ _
      refine ⟨?_, ?_⟩
      · rw [h.1]
        omega
      · rw [h.2]
        omega

/-- Each single operation preserves the total card count. -/
theorem applyOp_total (d : Deck) (op : DeckOp) (hv : op.Valid) :
    (applyOp d op).total_cards = d.total_cards := by
  cases op with
  | shuffle f =>
    have hlen : (f d.draw_pile).length = d.draw_pile.length :=
      (hv d.draw_pile).length_eq
    simp [applyOp, Deck.shuffleWith, Deck.total_cards, hlen]
  | draw n f =>
    have Hlen : ∀ l, (f l).length = l.length := fun l => (hv l).length_eq
    obtain ⟨h1, h2⟩ := drawLoop_lengths f Hlen n d.draw_pile d.discard_pile
    have hmin : min n (d.draw_pile.length + d.discard_pile.length)
        ≤ d.draw_pile.length + d.discard_pile.length := Nat.min_le_right _ _
    simp only [applyOp, Deck.draw, Deck.total_cards, List.length_append]
    omega
  | discardHand =>
    simp [applyOp, Deck.discard_hand, Deck.total_cards]
    omega

/-- A sequence of valid operations preserves the total card count. -/
theorem applyOps_total (d : Deck) (ops : List DeckOp)
    (hv : ∀ op ∈ ops, op.Valid) :
    (applyOps d ops).total_cards = d.total_cards := by
  induction ops generalizing d with
  | nil => rfl
  | cons op ops ih =>
    have h1 := applyOp_total d op (hv op (List.mem_cons_self _ _))
    have h2 := ih (applyOp d op) (fun o ho => hv o (List.mem_cons_of_mem _ ho))
    calc (applyOps d (op :: ops)).total_cards
        = (applyOps (applyOp d op) ops).total_cards := rfl
      _ = (applyOp d op).total_cards := h2
      _ = d.total_cards := h1

/-- `C3`: the total number of cards across draw pile, discard pile and hand
is unchanged by any finite sequence of shuffle, draw and discard-hand
operations. -/
theorem C3_total_cards_invariant (d : Deck) (ops : List DeckOp)
    (hv : ∀ op ∈ ops, op.Valid) :
    (applyOps d ops).total_cards = d.total_cards :=
  applyOps_total d ops hv

/-- Witness for `C3`: a draw of 2, a discard of the hand and a reversing
shuffle leave a 3-card deck at 3 cards. -/
theorem C3_invariant_witness :
    (applyOps { draw_pile := [strike, defend], discard_pile := [strike] }
        [DeckOp.draw 2 id, DeckOp.discardHand,
         DeckOp.shuffle List.reverse]).total_cards = 3 := by
  have h := C3_total_cards_invariant
    { draw_pile := [strike, defend], discard_pile := [strike] }
    [DeckOp.draw 2 id, DeckOp.discardHand, DeckOp.shuffle List.reverse]
    (by
      intro op hop
      rcases List.mem_cons.mp hop with h1 | hop
      · rw [h1]; exact fun l => List.Perm.refl l
      rcases List.mem_cons.mp hop with h2 | hop
      · rw [h2]; trivial
      rcases List.mem_cons.mp hop with h3 | hop
      · rw [h3]; exact fun l => List.reverse_perm l
      · cases hop)
  simpa using h

/-- `drawLoop` on an empty draw pile and non-empty discard pile first turns
the (shuffled) discard pile into the draw pile. -/
theorem drawLoop_reshuffle (f : List Card → List Card) (m : ℕ) (e : Card)
    (es : List Card) :
    Deck.drawLoop f (m + 1) [] (e :: es)
      = Deck.drawLoop f (m + 1) (f (e :: es)) [] := by
  rcases hfd : f (e :: es) with _ | ⟨x, xs⟩
  · simp [Deck.drawLoop, hfd]
  · simp [Deck.drawLoop, hfd]

/-- `C4`: `draw(n)` returns exactly `min n (|draw| + |discard|)` cards,
extends the hand with exactly those cards, shrinks the two piles by exactly
that amount (drawing stops early when both piles are empty), and when the
draw pile is empty and the discard pile is not, drawing proceeds as if the
shuffled discard pile were the draw pile (with the discard pile emptied).
`Deck.draw` is total — it returns a plain value on every input, so no error
is ever signalled. -/
theorem C4_draw_returns_min (d : Deck) (n : ℕ) (f : List Card → List Card)
    (hf : IsShuffle f) :
    (Deck.draw f n d).1.length
        = min n (d.draw_pile.length + d.discard_pile.length) ∧
      (Deck.draw f n d).2.hand = d.hand ++ (Deck.draw f n d).1 ∧
      (Deck.draw f n d).2.draw_pile.length
          + (Deck.draw f n d).2.discard_pile.length
        = (d.draw_pile.length + d.discard_pile.length)
            - (Deck.draw f n d).1.length ∧
      (d.draw_pile = [] → d.discard_pile ≠ [] → 0 < n →
        Deck.draw f n d
          = Deck.draw f n
              { draw_pile := f d.discard_pile, discard_pile := [],
                hand := d.hand }) := by
  have Hlen : ∀ l, (f l).length = l.length := fun l => (hf l).length_eq
  obtain ⟨h1, h2⟩ := drawLoop_lengths f Hlen n d.draw_pile d.discard_pile
  refine ⟨h1, rfl, ?_, ?_⟩
  · have hre : (Deck.draw f n d).2.draw_pile.length
          + (Deck.draw f n d).2.discard_pile.length
        = (Deck.drawLoop f n d.draw_pile d.discard_pile).2.1.length
          + (Deck.drawLoop f n d.draw_pile d.discard_pile).2.2.length := rfl
    have hre1 : (Deck.draw f n d).1
        = (Deck.drawLoop f n d.draw_pile d.discard_pile).1 := rfl
    rw [hre, hre1, h1]
    exact h2
  · intro hdp hdisc hn
    obtain ⟨dp, disc, hand⟩ := d
    simp only at hdp hdisc
    subst hdp
    rcases disc with _ | ⟨e, es⟩
    · exact absurd rfl hdisc
    rcases n with _ | m
    · exact absurd hn (by omega)
    simp only [Deck.draw]
    rw [drawLoop_reshuffle]

/-- Witness for `C4`: drawing 3 from a deck with 1 draw-pile and 1
discard-pile card yields exactly 2 cards. -/
theorem C4_draw_min_witness :
    (Deck.draw id 3 { draw_pile := [strike], discard_pile := [defend] }).1.length
      = 2 := by
  have h := C4_draw_returns_min
    { draw_pile := [strike], discard_pile := [defend] } 3 id
    (fun l => List.Perm.refl l)
  simpa using h.1

/-! `GameState` from `models/game_state.py`. -/

/-- `Stance` enumeration. -/
inductive Stance where
  | none | wrath | calm | divinity
deriving DecidableEq, Repr

/-- `OrbType` enumeration. -/
inductive OrbType where
  | lightning | frost | dark | plasma
deriving DecidableEq, Repr

/-- `GameState` dataclass: a full snapshot of a run in progress
(`BASE_ENERGY = 3` and the other dataclass defaults are reproduced). -/
structure GameState where
  character : Character := Character.ironclad
  deck : Deck := {}
  turn : ℤ := 0
  act : ℤ := 1
  floor : ℤ := 0
  ascension : ℤ := 0
  hp : ℤ := 80
  max_hp : ℤ := 80
  energy : ℤ := 3
  max_energy : ℤ := 3
  block : ℤ := 0
  gold : ℤ := 99
  strength : ℤ := 0
  dexterity : ℤ := 0
  focus : ℤ := 0
  mantra : ℤ := 0
  stance : Stance := Stance.none
  orb_slots : ℤ := 3
  orbs : List OrbType := []
  relics : List String := []
  potions : List String := []
deriving DecidableEq, Repr

/-- `GameState.next_turn(hand_size)`: zero the block, discard the hand,
draw `hand_size` cards (the shuffle outcome a reshuffle would consume is
`f`), refill energy to `max_energy`, advance the turn counter. -/
def GameState.next_turn (f : List Card → List Card) (hand_size : ℕ)
    (s : GameState) : GameState :=
  { s with
    block := 0,
    deck := (Deck.draw f hand_size s.deck.discard_hand).2,
    energy := s.max_energy,
    turn := s.turn + 1 }

/-- `C7` counterexample: on a state whose deck is empty, `next_turn(5)`
draws 0 cards, not the 5 the claim requires. -/
theorem C7_counterexample_empty_deck :
    (GameState.next_turn id 5 {}).deck.hand.length ≠ 5 := by
  decide

/-- `C7` (amended): `next_turn(handSize)` sets block to 0, discards the
hand and then draws — so the new hand holds `min handSize total` cards
(fewer than `handSize` only when the whole deck is smaller) — refills
energy to max energy, increments the turn counter by exactly 1, and
preserves the deck's total card count. -/
theorem C7_next_turn_transition (s : GameState) (hand_size : ℕ)
    (f : List Card → List Card) (hf : IsShuffle f) :
    (s.next_turn f hand_size).block = 0 ∧
      (s.next_turn f hand_size).energy = s.max_energy ∧
      (s.next_turn f hand_size).turn = s.turn + 1 ∧
      (s.next_turn f hand_size).deck
        = (Deck.draw f hand_size s.deck.discard_hand).2 ∧
      (s.next_turn f hand_size).deck.hand.length
        = min hand_size s.deck.total_cards ∧
      (s.next_turn f hand_size).deck.total_cards = s.deck.total_cards := by
  have Hlen : ∀ l, (f l).length = l.length := fun l => (hf l).length_eq
  obtain ⟨h1, _⟩ := drawLoop_lengths f Hlen hand_size
    s.deck.discard_hand.draw_pile s.deck.discard_hand.discard_pile
  refine ⟨rfl, rfl, rfl, rfl, ?_, ?_⟩
  · have hhand : (s.next_turn f hand_size).deck.hand
        = [] ++ (Deck.drawLoop f hand_size s.deck.discard_hand.draw_pile
            s.deck.discard_hand.discard_pile).1 := rfl
    rw [hhand, List.nil_append, h1]
    simp [Deck.discard_hand, Deck.total_cards]
    omega
  · have hd : (s.next_turn f hand_size).deck
        = applyOps s.deck [DeckOp.discardHand, DeckOp.draw hand_size f] := rfl
    rw [hd]
    exact applyOps_total s.deck [DeckOp.discardHand, DeckOp.draw hand_size f]
      (by
        intro op hop
        rcases List.mem_cons.mp hop with h1 | hop
        · rw [h1]; trivial
        rcases List.mem_cons.mp hop with h2 | hop
        · rw [h2]; exact hf
        · cases hop)

/-- Witness for `C7`: a 3-card deck, hand size 2. -/
theorem C7_next_turn_witness :
    (GameState.next_turn id 2
        { deck := { draw_pile := [strike, defend], hand := [strike] } }).block
        = 0 ∧
      (GameState.next_turn id 2
          { deck := { draw_pile := [strike, defend], hand := [strike] } }
        ).deck.hand.length = 2 := by
  have h := C7_next_turn_transition
    { deck := { draw_pile := [strike, defend], hand := [strike] } } 2 id
    (fun l => List.Perm.refl l)
  exact ⟨h.1, by simpa using h.2.2.2.2.1⟩

/-! Expected-output estimators from `stats/probability.py`.  Each Python
loop accumulates one summand per entry of `card_counts()`; a `continue`
contributes 0, so each loop is the sum of a per-card term function mapped
over `card_counts()`. -/

/-- `card.cost if card.cost >= 0 else 0`, the cost clamp applied in
`_energy_scale`, `expected_damage_output` and `expected_block_output`
(negative cost is the variable/unplayable sentinel). -/
def clampedCost (c : Card) : ℤ :=
  if c.cost ≥ 0 then c.cost else 0

/-- `hits = card.effects.get("hits", 1); if not isinstance(hits, int): hits = 1`. -/
def hitsVal (c : Card) : ℤ :=
  let h := getEff c.effects "hits" (EffVal.vint 1)
  if h.isPyInt then h.intVal else 1

/-- One summand of `_expected_bonus_energy`'s loop. -/
def bonusTerm (c : Card) (copies : ℕ) (hand_size : ℤ) (total : ℕ) : ℚ :=
  if c.card_type = CardType.curse ∨ c.card_type = CardType.status then 0
  else
    let energy_gain := getEff c.effects "energy" (EffVal.vint 0)
    if energy_gain.isNum = false ∨ energy_gain.numVal ≤ 0 then 0
    else ((copies : ℚ) * (hand_size : ℚ) / (total : ℚ)) * energy_gain.numVal

/-- `_expected_bonus_energy(deck, hand_size)`. -/
def _expected_bonus_energy (d : Deck) (hand_size : ℤ) : ℚ :=
  if d.total_cards = 0 then 0
  else ((d.card_counts).map
    (fun p => bonusTerm p.1 p.2 hand_size d.total_cards)).sum

/-- One summand of `_energy_scale`'s demand loop. -/
def demandTerm (c : Card) (copies : ℕ) (hand_size : ℤ) (total : ℕ)
    (energy : ℚ) : ℚ :=
  if c.card_type = CardType.curse ∨ c.card_type = CardType.status then 0
  else if (clampedCost c : ℚ) > energy then 0
  else ((copies : ℚ) * (hand_size : ℚ) / (total : ℚ)) * (clampedCost c : ℚ)

/-- `_energy_scale(deck, hand_size, energy)`. -/
def _energy_scale (d : Deck) (hand_size : ℤ) (energy : ℚ) : ℚ :=
  if d.total_cards = 0 then 1
  else
    let demand := ((d.card_counts).map
      (fun p => demandTerm p.1 p.2 hand_size d.total_cards energy)).sum
    if demand > 0 then min 1 (energy / demand) else 1

/-- One summand of `expected_damage_output`'s loop. -/
def dmgTerm (c : Card) (copies : ℕ) (hand_size : ℤ) (total : ℕ)
    (energy strength : ℤ) (vuln_mult weak_mult : ℚ) : ℚ :=
  if c.card_type ≠ CardType.attack then 0
  else
    let base_dmg := getEff c.effects "damage" (EffVal.vint 0)
    if base_dmg.isNum = false then 0
    else if clampedCost c > energy then 0
    else
      ((copies : ℚ) * (hand_size : ℚ) / (total : ℚ))
        * ((base_dmg.numVal + (strength : ℚ)) * (hitsVal c : ℚ)
            * vuln_mult * weak_mult)

/-- `expected_damage_output(deck, hand_size, energy, strength, vulnerable,
weak, vuln_multiplier, weak_multiplier)`; the Python defaults are
`hand_size = 5`, `energy = 3`, `strength = 0`, `vulnerable = weak = False`,
`vuln_multiplier = 1.5`, `weak_multiplier = 0.75`. -/
def expected_damage_output (d : Deck) (hand_size energy strength : ℤ)
    (vulnerable weak : Bool) (vuln_multiplier weak_multiplier : ℚ) : ℚ :=
  let vuln_mult := if vulnerable then vuln_multiplier else 1
  let weak_mult := if weak then weak_multiplier else 1
  if d.total_cards = 0 then 0
  else
    let effective_energy := (energy : ℚ) + _expected_bonus_energy d hand_size
    let scale := _energy_scale d hand_size effective_energy
    (((d.card_counts).map
      (fun p => dmgTerm p.1 p.2 hand_size d.total_cards energy strength
        vuln_mult weak_mult)).sum) * scale

/-- One summand of `expected_block_output`'s loop. -/
def blockTerm (c : Card) (copies : ℕ) (hand_size : ℤ) (total : ℕ)
    (energy dexterity : ℤ) : ℚ :=
  let base_block := getEff c.effects "block" (EffVal.vint 0)
  if base_block.isNum = false ∨ base_block.numVal ≤ 0 then 0
  else if clampedCost c > energy then 0
  else
    ((copies : ℚ) * (hand_size : ℚ) / (total : ℚ))
      * max (base_block.numVal + (dexterity : ℚ)) 0

/-- `expected_block_output(deck, hand_size, energy, dexterity)`; the Python
defaults are `hand_size = 5`, `energy = 3`, `dexterity = 0`. -/
def expected_block_output (d : Deck) (hand_size energy dexterity : ℤ) : ℚ :=
  if d.total_cards = 0 then 0
  else
    let effective_energy := (energy : ℚ) + _expected_bonus_energy d hand_size
    let scale := _energy_scale d hand_size effective_energy
    (((d.card_counts).map
      (fun p => blockTerm p.1 p.2 hand_size d.total_cards energy
        dexterity)).sum) * scale

/-- `C10`: a negative cost (the variable/unplayable sentinel) is clamped to
0: it passes the affordability check against every non-negative energy
budget (both the integer check of the damage/block loops and the rational
check of `_energy_scale`) and contributes zero to the expected energy
demand. -/
theorem C10_negative_cost_clamped (c : Card) (hc : c.cost < 0) :
    clampedCost c = 0 ∧
      (∀ energy : ℤ, 0 ≤ energy → ¬ clampedCost c > energy) ∧
      (∀ energy : ℚ, 0 ≤ energy → ¬ (clampedCost c : ℚ) > energy) ∧
      (∀ (copies : ℕ) (hand_size : ℤ) (total : ℕ) (energy : ℚ),
        demandTerm c copies hand_size total energy = 0) := by
  have h0 : clampedCost c = 0 := by
    unfold clampedCost
    rw [if_neg (by omega)]
  refine ⟨h0, ?_, ?_, ?_⟩
  · intro energy he
    rw [h0]
    omega
  · intro energy he
    rw [h0]
    push_cast
    exact not_lt.mpr he
  · intro copies hand_size total energy
    unfold demandTerm
    rw [h0]
    split_ifs <;> simp

/-- Witness for `C10`: an X-cost attack (cost sentinel −1). -/
theorem C10_clamped_witness :
    clampedCost
        { name := "Whirlwind", card_type := CardType.attack, cost := -1,
          effects := [("damage", EffVal.vint 5)] } = 0 ∧
      demandTerm
        { name := "Whirlwind", card_type := CardType.attack, cost := -1,
          effects := [("damage", EffVal.vint 5)] } 2 5 10 3 = 0 :=
  ⟨(C10_negative_cost_clamped _ (by norm_num)).1,
   (C10_negative_cost_clamped _ (by norm_num)).2.2.2 2 5 10 3⟩

/-- An attack card with no `damage` entry at all (used against `C5`). -/
def bareAttack : Card :=
  { name := "Bash", card_type := CardType.attack,
    character := Character.ironclad, cost := 1,
    effects := [("vulnerable", EffVal.vint 2)] }

/-- `C5` counterexample: a card with a *missing* damage value is not
skipped — `effects.get("damage", 0)` defaults to the numeric 0, and with
strength 5 the card contributes 5 expected damage instead of nothing. -/
theorem C5_counterexample_missing_damage_counts :
    hasKey bareAttack.effects "damage" = false ∧
      expected_damage_output { draw_pile := [bareAttack] } 1 3 5 false false
          (3 / 2) (3 / 4) = 5 ∧
      (5 : ℚ) ≠ 0 := by
  refine ⟨rfl, ?_, by norm_num⟩
  simp [expected_damage_output, _energy_scale, _expected_bonus_energy,
    Deck.card_counts, Deck.dedupByKey, Deck.countKey, Deck.allCards,
    Deck.total_cards, dmgTerm, demandTerm, bonusTerm, getEff, clampedCost,
    hitsVal, bareAttack, cardKey, List.find?, EffVal.isNum, EffVal.numVal,
    EffVal.isPyInt, EffVal.intVal]

/-- `C5` (amended): a *non-numeric* value for damage, block or energy causes
that card to be skipped (zero contribution) in the corresponding
calculation, and a non-`int` `hits` value is replaced by 1; a *missing*
damage value defaults to the numeric 0 and is not skipped (the card still
contributes strength-scaled damage), while missing block/energy values fall
to the non-positivity check and are skipped.  All functions are total, so
the computation never aborts. -/
theorem C5_nonnumeric_values_skipped (c : Card) (copies : ℕ)
    (hand_size : ℤ) (total : ℕ) (energy strength dexterity : ℤ)
    (vuln_mult weak_mult : ℚ) :
    ((getEff c.effects "damage" (EffVal.vint 0)).isNum = false →
        dmgTerm c copies hand_size total energy strength vuln_mult weak_mult
          = 0) ∧
      ((getEff c.effects "block" (EffVal.vint 0)).isNum = false →
        blockTerm c copies hand_size total energy dexterity = 0) ∧
      ((getEff c.effects "energy" (EffVal.vint 0)).isNum = false →
        bonusTerm c copies hand_size total = 0) ∧
      ((getEff c.effects "hits" (EffVal.vint 1)).isPyInt = false →
        hitsVal c = 1) := by
  refine ⟨?_, ?_, ?_, ?_⟩
  · intro h
    simp [dmgTerm, h]
  · intro h
    simp [blockTerm, h]
  · intro h
    simp [bonusTerm, h]
  · intro h
    simp [hitsVal, h]

/-- Witness for `C5`: a card whose damage entry is the string `"X"`. -/
theorem C5_skip_witness :
    dmgTerm
        { name := "Glitch", card_type := CardType.attack, cost := 0,
          effects := [("damage", EffVal.vstr "X")] } 1 5 10 3 0 1 1 = 0 :=
  (C5_nonnumeric_values_skipped
      { name := "Glitch", card_type := CardType.attack, cost := 0,
        effects := [("damage", EffVal.vstr "X")] } 1 5 10 3 0 0 1 1).1 rfl

/-! Non-negativity facts for `C6`. -/

theorem clampedCost_nonneg (c : Card) : 0 ≤ clampedCost c := by
  unfold clampedCost
  split_ifs with h
  · exact h
  · exact le_refl 0

/-- The energy-damping ratio is never negative (when positive demand exists,
some affordable card has positive cost, so the budget itself is positive). -/
theorem _energy_scale_nonneg (d : Deck) (hand_size : ℤ) (e : ℚ) :
    0 ≤ _energy_scale d hand_size e := by
  simp only [_energy_scale]
  split_ifs with h0 hpos
  · norm_num
  · obtain ⟨p, hpmem, hppos⟩ :=
      List.exists_lt_of_sum_lt (l := d.card_counts) (fun _ => (0 : ℚ))
        (fun p => demandTerm p.1 p.2 hand_size d.total_cards e)
        (by simpa using hpos)
    have hx := hppos
    unfold demandTerm at hx
    split_ifs at hx with h1 h2
    · exact absurd hx (lt_irrefl 0)
    · exact absurd hx (lt_irrefl 0)
    · have hcost0 : (0 : ℚ) ≤ (clampedCost p.1 : ℚ) := by
        exact_mod_cast clampedCost_nonneg p.1
      have hcostpos : (0 : ℚ) < (clampedCost p.1 : ℚ) := by
        rcases hcost0.lt_or_eq with h | h
        · exact h
        · rw [← h] at hx
          simp at hx
      have he : 0 < e := lt_of_lt_of_le hcostpos (not_lt.mp h2)
      exact le_min (by norm_num) (le_of_lt (div_pos he hpos))
  · norm_num

theorem dedupByKey_subset (l : List Card) : ∀ x ∈ Deck.dedupByKey l, x ∈ l := by
  induction l with
  | nil => intro x hx; cases hx
  | cons c rest ih =>
    intro x hx
    rcases List.mem_cons.mp hx with h | h
    · exact h ▸ List.mem_cons_self _ _
    · exact List.mem_cons_of_mem _ (ih x (List.mem_filter.mp h).1)

theorem fst_mem_allCards_of_mem_card_counts (d : Deck) (p : Card × ℕ)
    (hp : p ∈ d.card_counts) : p.1 ∈ d.allCards := by
  unfold Deck.card_counts at hp
  rcases List.mem_map.mp hp with ⟨c, hc, hpc⟩
  rw [← hpc]
  exact dedupByKey_subset d.allCards c hc

theorem blockTerm_nonneg (c : Card) (copies : ℕ) (hand_size : ℤ) (total : ℕ)
    (energy dexterity : ℤ) (hhs : 0 ≤ hand_size) :
    0 ≤ blockTerm c copies hand_size total energy dexterity := by
  simp only [blockTerm]
  split_ifs
  · exact le_refl 0
  · exact le_refl 0
  · apply mul_nonneg
    · apply div_nonneg
      · exact mul_nonneg (by positivity) (by exact_mod_cast hhs)
      · positivity
    · exact le_max_right _ 0

theorem dmgTerm_nonneg (c : Card) (copies : ℕ) (hand_size : ℤ) (total : ℕ)
    (energy strength : ℤ) (vuln_mult weak_mult : ℚ) (hhs : 0 ≤ hand_size)
    (hst : 0 ≤ strength)
    (hd : 0 ≤ (getEff c.effects "damage" (EffVal.vint 0)).numVal)
    (hh : 0 ≤ hitsVal c) (hvm : 0 ≤ vuln_mult) (hwm : 0 ≤ weak_mult) :
    0 ≤ dmgTerm c copies hand_size total energy strength vuln_mult weak_mult
    := by
  simp only [dmgTerm]
  split_ifs
  · exact le_refl 0
  · exact le_refl 0
  · exact le_refl 0
  · apply mul_nonneg
    · apply div_nonneg
      · exact mul_nonneg (by positivity) (by exact_mod_cast hhs)
      · positivity
    · apply mul_nonneg
      apply mul_nonneg
      apply mul_nonneg
      · exact add_nonneg hd (by exact_mod_cast hst)
      · exact_mod_cast hh
      · exact hvm
      · exact hwm

/-- `C6` counterexample: with strength −10, a 6-damage Strike contributes
`6 − 10 = −4` per expected copy, so the expected damage is negative. -/
theorem C6_counterexample_negative_strength :
    expected_damage_output { draw_pile := [strike] } 1 3 (-10) false false
        (3 / 2) (3 / 4) = -4 ∧ (-4 : ℚ) < 0 := by
  refine ⟨?_, by norm_num⟩
  simp [expected_damage_output, _energy_scale, _expected_bonus_energy,
    Deck.card_counts, Deck.dedupByKey, Deck.countKey, Deck.allCards,
    Deck.total_cards, dmgTerm, demandTerm, bonusTerm, getEff, clampedCost,
    hitsVal, strike, cardKey, List.find?, EffVal.isNum, EffVal.numVal,
    EffVal.isPyInt, EffVal.intVal]
  norm_num

/-- `C6` (amended): both expectation functions are 0 on an empty deck;
`expected_block_output` is non-negative for every energy, dexterity and
non-negative hand size; `expected_damage_output` (at the default 1.5/0.75
multipliers) is non-negative whenever the hand size, the strength and every
card's damage and hits values are non-negative. -/
theorem C6_empty_zero_and_nonneg (d : Deck)
    (hand_size energy strength dexterity : ℤ) (vulnerable weak : Bool) :
    (d.total_cards = 0 →
        expected_damage_output d hand_size energy strength vulnerable weak
            (3 / 2) (3 / 4) = 0 ∧
          expected_block_output d hand_size energy dexterity = 0) ∧
      (0 ≤ hand_size →
        0 ≤ expected_block_output d hand_size energy dexterity) ∧
      (0 ≤ hand_size → 0 ≤ strength →
        (∀ c ∈ d.allCards,
          0 ≤ (getEff c.effects "damage" (EffVal.vint 0)).numVal ∧
            0 ≤ hitsVal c) →
        0 ≤ expected_damage_output d hand_size energy strength vulnerable
              weak (3 / 2) (3 / 4)) := by
  refine ⟨?_, ?_, ?_⟩
  · intro h0
    constructor
    · simp [expected_damage_output, h0]
    · simp [expected_block_output, h0]
  · intro hhs
    simp only [expected_block_output]
    split_ifs with h0
    · exact le_refl 0
    · apply mul_nonneg
      · apply List.sum_nonneg
        intro x hx
        rcases List.mem_map.mp hx with ⟨p, hpmem, hpx⟩
        rw [← hpx]
        exact blockTerm_nonneg p.1 p.2 hand_size d.total_cards energy
          dexterity hhs
      · exact _energy_scale_nonneg d hand_size _
  · intro hhs hst hcards
    have key : ∀ vm wm : ℚ, 0 ≤ vm → 0 ≤ wm →
        0 ≤ (List.map (fun p => dmgTerm p.1 p.2 hand_size d.total_cards
              energy strength vm wm) d.card_counts).sum
            * _energy_scale d hand_size
                ((energy : ℚ) + _expected_bonus_energy d hand_size) := by
      intro vm wm hvm hwm
      apply mul_nonneg
      · apply List.sum_nonneg
        intro x hx
        rcases List.mem_map.mp hx with ⟨p, hpmem, hpx⟩
        rw [← hpx]
        have hc := hcards p.1 (fst_mem_allCards_of_mem_card_counts d p hpmem)
        exact dmgTerm_nonneg p.1 p.2 hand_size d.total_cards energy strength
          vm wm hhs hst hc.1 hc.2 hvm hwm
      · exact _energy_scale_nonneg d hand_size _
    by_cases h0 : d.total_cards = 0
    · simp [expected_damage_output, h0]
    · simp only [expected_damage_output, if_neg h0]
      exact key _ _ (by split_ifs <;> norm_num) (by split_ifs <;> norm_num)

/-- Witness for `C6`: the standard Strike/Defend deck. -/
theorem C6_nonneg_witness :
    0 ≤ expected_block_output { draw_pile := [strike, defend] } 5 3 0 :=
  (C6_empty_zero_and_nonneg { draw_pile := [strike, defend] } 5 3 0 0 false
    false).2.1 (by norm_num)

/-! Relics (`models/relic.py`) and the modifier aggregation
(`get_relic_combat_modifiers` in `stats/probability.py`). -/

/-- `RelicRarity` enumeration. -/
inductive RelicRarity where
  | starter | common | uncommon | rare | boss | shop | event
deriving DecidableEq, Repr

/-- `Relic` dataclass (equal by name in Python; structural identity plays no
role in the aggregator, which only reads `effects`). -/
structure Relic where
  name : String
  rarity : RelicRarity := RelicRarity.common
  description : String := ""
  character : Character := Character.neutral
  effects : Effects := []
deriving DecidableEq, Repr

/-- `RelicCombatModifiers` dataclass.  The numeric totals start as Python
`int` 0 but may become floats through `+=`; they are modelled as `ℚ`
throughout.  The multiplier overrides are plain attribute assignments of
whatever value the effect map holds, hence `Option EffVal`. -/
structure RelicCombatModifiers where
  energy : ℚ := 0
  strength : ℚ := 0
  dexterity : ℚ := 0
  draw : ℚ := 0
  energy_turn1 : ℚ := 0
  strength_turn1 : ℚ := 0
  vulnerable : Bool := false
  weak : Bool := false
  vuln_multiplier : Option EffVal := none
  weak_multiplier : Option EffVal := none
  block_start : ℚ := 0
deriving DecidableEq, Repr

/-- Python `total += value` on a numeric accumulator: adding a string raises
`TypeError` (modelled as `none`); `bool` adds as 0/1. -/
def numAdd (q : ℚ) (v : EffVal) : Option ℚ :=
  match v with
  | EffVal.vint i => some (q + i)
  | EffVal.vfloat r => some (q + r)
  | EffVal.vbool b => some (q + if b then 1 else 0)
  | EffVal.vstr _ => none

/-- Python `if e.get(k):` — truthiness of the looked-up value (a missing key
yields `None`, which is falsy). -/
def truthyKey (e : Effects) (k : String) : Bool :=
  match e.find? (fun p => p.1 = k) with
  | some p => p.2.truthy
  | none => false

/-- The body of `get_relic_combat_modifiers`'s loop for one relic:
relics with an empty (or missing) effect map are skipped; numeric fields
accumulate; `vulnerable`/`weak` are ORed in by truthiness; the multiplier
overrides are last-write-wins. -/
def relicStep (mods : RelicCombatModifiers) (r : Relic) :
    Option RelicCombatModifiers :=
  if r.effects = [] then some mods
  else do
    let energy ← numAdd mods.energy (getEff r.effects "energy" (EffVal.vint 0))
    let strength ← numAdd mods.strength
      (getEff r.effects "strength" (EffVal.vint 0))
    let dexterity ← numAdd mods.dexterity
      (getEff r.effects "dexterity" (EffVal.vint 0))
    let draw ← numAdd mods.draw (getEff r.effects "draw" (EffVal.vint 0))
    let energy_turn1 ← numAdd mods.energy_turn1
      (getEff r.effects "energy_turn1" (EffVal.vint 0))
    let strength_turn1 ← numAdd mods.strength_turn1
      (getEff r.effects "strength_turn1" (EffVal.vint 0))
    let block_start ← numAdd mods.block_start
      (getEff r.effects "block_start" (EffVal.vint 0))
    some
      { energy := energy, strength := strength, dexterity := dexterity,
        draw := draw, energy_turn1 := energy_turn1,
        strength_turn1 := strength_turn1, block_start := block_start,
        vulnerable := mods.vulnerable || truthyKey r.effects "vulnerable",
        weak := mods.weak || truthyKey r.effects "weak",
        vuln_multiplier :=
          match r.effects.find? (fun p => p.1 = "vuln_multiplier") with
          | some p => some p.2
          | none => mods.vuln_multiplier,
        weak_multiplier :=
          match r.effects.find? (fun p => p.1 = "weak_multiplier") with
          | some p => some p.2
          | none => mods.weak_multiplier }

/-- `get_relic_combat_modifiers(relics)`; `none` models the `TypeError`
Python would raise on a non-numeric value in a numeric field. -/
def get_relic_combat_modifiers (relics : List Relic) :
    Option RelicCombatModifiers :=
  relics.foldlM relicStep {}

/-- A relic whose only effect is a `dexterity_turn1` grant. -/
def toolbox : Relic :=
  { name := "Toolbox", effects := [("dexterity_turn1", EffVal.vint 3)] }

/-- `C8` counterexample: the aggregator has no `_turn1` counterpart for
`dexterity` (only `energy_turn1` and `strength_turn1` exist), so a
`dexterity_turn1` effect contributes nothing: aggregating such a relic
gives the same bundle as aggregating no relics at all, contradicting "the
turn-1 counterpart of each of these is summed". -/
theorem C8_counterexample_dexterity_turn1_ignored :
    toolbox.effects ≠ [] ∧
      get_relic_combat_modifiers [toolbox] = get_relic_combat_modifiers [] :=
  ⟨by decide, by
    simp [get_relic_combat_modifiers, relicStep, toolbox, getEff, numAdd,
      truthyKey, List.find?, List.foldlM]⟩

/-- Reference reading of the aggregation: the total a numeric field reaches
over the relics with a non-empty effect map. -/
def sumField (relics : List Relic) (k : String) : ℚ :=
  ((relics.filter (fun r => decide (r.effects ≠ []))).map
    (fun r => (getEff r.effects k (EffVal.vint 0)).numVal)).sum

/-- Reference reading: whether any contributing relic has a truthy value
for the boolean field `k`. -/
def anyTruthy (relics : List Relic) (k : String) : Bool :=
  (relics.filter (fun r => decide (r.effects ≠ []))).any
    (fun r => truthyKey r.effects k)

/-- Reference reading: last-write-wins override for multiplier field `k`,
starting from `acc`. -/
def lastOverrideFrom (acc : Option EffVal) (relics : List Relic)
    (k : String) : Option EffVal :=
  relics.foldl
    (fun a r =>
      if r.effects = [] then a
      else
        match r.effects.find? (fun p => p.1 = k) with
        | some p => some p.2
        | none => a) acc

theorem sumField_cons_skip (r : Relic) (rs : List Relic) (k : String)
    (h : r.effects = []) : sumField (r :: rs) k = sumField rs k := by
  simp [sumField, List.filter_cons, h]

theorem sumField_cons (r : Relic) (rs : List Relic) (k : String)
    (h : r.effects ≠ []) :
    sumField (r :: rs) k
      = (getEff r.effects k (EffVal.vint 0)).numVal + sumField rs k := by
  simp [sumField, List.filter_cons, h]

theorem anyTruthy_cons_skip (r : Relic) (rs : List Relic) (k : String)
    (h : r.effects = []) : anyTruthy (r :: rs) k = anyTruthy rs k := by
  simp [anyTruthy, List.filter_cons, h]

theorem anyTruthy_cons (r : Relic) (rs : List Relic) (k : String)
    (h : r.effects ≠ []) :
    anyTruthy (r :: rs) k = (truthyKey r.effects k || anyTruthy rs k) := by
  simp [anyTruthy, List.filter_cons, h]

theorem numAdd_eq (q : ℚ) (v : EffVal) (q' : ℚ) (h : numAdd q v = some q') :
    q' = q + v.numVal := by
  cases v with
  | vint i => exact (Option.some.inj h).symm
  | vfloat r => exact (Option.some.inj h).symm
  | vbool b => exact (Option.some.inj h).symm
  | vstr s => simp [numAdd] at h

/-- What one successful aggregation step does to every field. -/
theorem relicStep_some (m0 m1 : RelicCombatModifiers) (r : Relic)
    (hre : r.effects ≠ []) (h : relicStep m0 r = some m1) :
    m1.energy = m0.energy + (getEff r.effects "energy" (EffVal.vint 0)).numVal
      ∧ m1.strength
        = m0.strength + (getEff r.effects "strength" (EffVal.vint 0)).numVal
      ∧ m1.dexterity
        = m0.dexterity + (getEff r.effects "dexterity" (EffVal.vint 0)).numVal
      ∧ m1.draw = m0.draw + (getEff r.effects "draw" (EffVal.vint 0)).numVal
      ∧ m1.energy_turn1 = m0.energy_turn1
          + (getEff r.effects "energy_turn1" (EffVal.vint 0)).numVal
      ∧ m1.strength_turn1 = m0.strength_turn1
          + (getEff r.effects "strength_turn1" (EffVal.vint 0)).numVal
      ∧ m1.block_start = m0.block_start
          + (getEff r.effects "block_start" (EffVal.vint 0)).numVal
      ∧ m1.vulnerable = (m0.vulnerable || truthyKey r.effects "vulnerable")
      ∧ m1.weak = (m0.weak || truthyKey r.effects "weak")
      ∧ m1.vuln_multiplier
        = (match r.effects.find? (fun p => p.1 = "vuln_multiplier") with
           | some p => some p.2
           | none => m0.vuln_multiplier)
      ∧ m1.weak_multiplier
        = (match r.effects.find? (fun p => p.1 = "weak_multiplier") with
           | some p => some p.2
           | none => m0.weak_multiplier) := by
  unfold relicStep at h
  rw [if_neg hre] at h
  rcases hE : numAdd m0.energy (getEff r.effects "energy" (EffVal.vint 0))
    with _ | qE <;> rw [hE] at h
  · exact absurd h (by simp)
  rcases hS : numAdd m0.strength (getEff r.effects "strength" (EffVal.vint 0))
    with _ | qS <;> rw [hS] at h
  · exact absurd h (by simp)
  rcases hD : numAdd m0.dexterity
      (getEff r.effects "dexterity" (EffVal.vint 0)) with _ | qD
    <;> rw [hD] at h
  · exact absurd h (by simp)
  rcases hW : numAdd m0.draw (getEff r.effects "draw" (EffVal.vint 0))
    with _ | qW <;> rw [hW] at h
  · exact absurd h (by simp)
  rcases hE1 : numAdd m0.energy_turn1
      (getEff r.effects "energy_turn1" (EffVal.vint 0)) with _ | qE1
    <;> rw [hE1] at h
  · exact absurd h (by simp)
  rcases hS1 : numAdd m0.strength_turn1
      (getEff r.effects "strength_turn1" (EffVal.vint 0)) with _ | qS1
    <;> rw [hS1] at h
  · exact absurd h (by simp)
  rcases hB : numAdd m0.block_start
      (getEff r.effects "block_start" (EffVal.vint 0)) with _ | qB
    <;> rw [hB] at h
  · exact absurd h (by simp)
  obtain rfl := Option.some.inj h
  exact ⟨numAdd_eq _ _ _ hE, numAdd_eq _ _ _ hS, numAdd_eq _ _ _ hD,
    numAdd_eq _ _ _ hW, numAdd_eq _ _ _ hE1, numAdd_eq _ _ _ hS1,
    numAdd_eq _ _ _ hB, rfl, rfl, rfl, rfl⟩

/-- Field-by-field characterisation of a successful fold of `relicStep`
over a relic list, from an arbitrary starting bundle. -/
theorem foldlM_relicStep_fields (rs : List Relic) :
    ∀ (m0 m : RelicCombatModifiers), rs.foldlM relicStep m0 = some m →
      m.energy = m0.energy + sumField rs "energy"
        ∧ m.strength = m0.strength + sumField rs "strength"
        ∧ m.dexterity = m0.dexterity + sumField rs "dexterity"
        ∧ m.draw = m0.draw + sumField rs "draw"
        ∧ m.energy_turn1 = m0.energy_turn1 + sumField rs "energy_turn1"
        ∧ m.strength_turn1 = m0.strength_turn1 + sumField rs "strength_turn1"
        ∧ m.block_start = m0.block_start + sumField rs "block_start"
        ∧ m.vulnerable = (m0.vulnerable || anyTruthy rs "vulnerable")
        ∧ m.weak = (m0.weak || anyTruthy rs "weak")
        ∧ m.vuln_multiplier
          = lastOverrideFrom m0.vuln_multiplier rs "vuln_multiplier"
        ∧ m.weak_multiplier
          = lastOverrideFrom m0.weak_multiplier rs "weak_multiplier" := by
  induction rs with
  | nil =>
    intro m0 m h
    have hm : m0 = m := by simpa [List.foldlM] using h
    subst hm
    simp [sumField, anyTruthy, lastOverrideFrom]
  | cons r rs ih =>
    intro m0 m h
    rcases hstep : relicStep m0 r with _ | m1
    · rw [List.foldlM_cons, hstep] at h
      exact absurd h (by simp)
    · rw [List.foldlM_cons, hstep] at h
      replace h : List.foldlM relicStep m1 rs = some m := h
      have IH := ih m1 m h
      by_cases hre : r.effects = []
      · have hm1 : m1 = m0 := by
          unfold relicStep at hstep
          rw [if_pos hre] at hstep
          exact (Option.some.inj hstep).symm
        subst hm1
        rw [sumField_cons_skip r rs _ hre, sumField_cons_skip r rs _ hre,
          sumField_cons_skip r rs _ hre, sumField_cons_skip r rs _ hre,
          sumField_cons_skip r rs _ hre, sumField_cons_skip r rs _ hre,
          sumField_cons_skip r rs _ hre, anyTruthy_cons_skip r rs _ hre,
          anyTruthy_cons_skip r rs _ hre]
        have hlast : ∀ (acc : Option EffVal) (k : String),
            lastOverrideFrom acc (r :: rs) k = lastOverrideFrom acc rs k := by
          intro acc k
          simp [lastOverrideFrom, hre]
        rw [hlast, hlast]
        exact IH
      · obtain ⟨f1, f2, f3, f4, f5, f6, f7, f8, f9, f10, f11⟩ :=
          relicStep_some m0 m1 r hre hstep
        rw [sumField_cons r rs _ hre, sumField_cons r rs _ hre,
          sumField_cons r rs _ hre, sumField_cons r rs _ hre,
          sumField_cons r rs _ hre, sumField_cons r rs _ hre,
          sumField_cons r rs _ hre, anyTruthy_cons r rs _ hre,
          anyTruthy_cons r rs _ hre]
        have hlast : ∀ (acc : Option EffVal) (k : String),
            lastOverrideFrom acc (r :: rs) k
              = lastOverrideFrom
                  (match r.effects.find? (fun p => p.1 = k) with
                   | some p => some p.2
                   | none => acc) rs k := by
          intro acc k
          simp [lastOverrideFrom, hre]
        rw [hlast, hlast]
        refine ⟨?_, ?_, ?_, ?_, ?_, ?_, ?_, ?_, ?_, ?_, ?_⟩
        · rw [IH.1, f1]; ring
        · rw [IH.2.1, f2]; ring
        · rw [IH.2.2.1, f3]; ring
        · rw [IH.2.2.2.1, f4]; ring
        · rw [IH.2.2.2.2.1, f5]; ring
        · rw [IH.2.2.2.2.2.1, f6]; ring
        · rw [IH.2.2.2.2.2.2.1, f7]; ring
        · rw [IH.2.2.2.2.2.2.2.1, f8, Bool.or_assoc]
        · rw [IH.2.2.2.2.2.2.2.2.1, f9, Bool.or_assoc]
        · rw [IH.2.2.2.2.2.2.2.2.2.1, f10]
        · rw [IH.2.2.2.2.2.2.2.2.2.2, f11]

/-- `C8` (amended): a successful aggregation sums the numeric fields
`energy`, `strength`, `dexterity`, `draw` and `block_start` over the relics
with a non-empty effect map, together with the two turn-1 counterparts the
bundle actually has (`energy_turn1` and `strength_turn1` only — `dexterity`,
`draw` and `block_start` have no turn-1 field); it ORs the truthiness of
`vulnerable` and `weak`; it applies last-write-wins to `vuln_multiplier`
and `weak_multiplier`; relics without effects contribute nothing. -/
theorem C8_aggregation_fields (relics : List Relic)
    (m : RelicCombatModifiers)
    (h : get_relic_combat_modifiers relics = some m) :
    m.energy = sumField relics "energy"
      ∧ m.strength = sumField relics "strength"
      ∧ m.dexterity = sumField relics "dexterity"
      ∧ m.draw = sumField relics "draw"
      ∧ m.energy_turn1 = sumField relics "energy_turn1"
      ∧ m.strength_turn1 = sumField relics "strength_turn1"
      ∧ m.block_start = sumField relics "block_start"
      ∧ m.vulnerable = anyTruthy relics "vulnerable"
      ∧ m.weak = anyTruthy relics "weak"
      ∧ m.vuln_multiplier = lastOverrideFrom none relics "vuln_multiplier"
      ∧ m.weak_multiplier = lastOverrideFrom none relics "weak_multiplier"
    := by
  have H := foldlM_relicStep_fields relics {} m h
  simpa using H

/-- Relics used by the `C8` witness. -/
def coffee : Relic :=
  { name := "Coffee",
    effects := [("energy", EffVal.vint 1), ("vulnerable", EffVal.vint 1),
      ("vuln_multiplier", EffVal.vfloat 2)] }

def mug : Relic :=
  { name := "Mug",
    effects := [("energy", EffVal.vint 2),
      ("vuln_multiplier", EffVal.vfloat (5 / 2))] }

/-- Witness for `C8`: two energy relics stack to 3 energy. -/
theorem C8_aggregation_witness : (3 : ℚ) = sumField [coffee, mug] "energy"
    := by
  have h := C8_aggregation_fields [coffee, mug]
    { energy := 3, vulnerable := true,
      vuln_multiplier := some (EffVal.vfloat (5 / 2)) }
    (by
      simp [get_relic_combat_modifiers, relicStep, coffee, mug, getEff,
        numAdd, truthyKey, EffVal.truthy, List.find?, List.foldlM]
      norm_num)
  exact h.1

/-! Monte-Carlo aggregation from `stats/simulator.py`.  Only
`SimulationResult` is modelled: the `Simulator.run` loop adds no structure
beyond repeatedly calling `record`, and `C9` is about the summary. -/

/-- `SimulationResult` dataclass: run counter and per-metric value lists
(a Python dict in insertion order). -/
structure SimulationResult where
  runs : ℕ := 0
  outcomes : List (String × List ℚ) := []
deriving DecidableEq, Repr

/-- `self.outcomes.setdefault(key, []).append(value)`. -/
def addOutcome (outcomes : List (String × List ℚ)) (k : String) (v : ℚ) :
    List (String × List ℚ) :=
  if outcomes.any (fun p => p.1 = k) then
    outcomes.map (fun p => if p.1 = k then (p.1, p.2 ++ [v]) else p)
  else outcomes ++ [(k, [v])]

/-- `SimulationResult.record(metrics)`. -/
def SimulationResult.record (res : SimulationResult)
    (metrics : List (String × ℚ)) : SimulationResult :=
  { runs := res.runs + 1,
    outcomes := metrics.foldl (fun o p => addOutcome o p.1 p.2) res.outcomes }

/-- `self.outcomes.get(key, [])`. -/
def SimulationResult.values (res : SimulationResult) (key : String) :
    List ℚ :=
  match res.outcomes.find? (fun p => p.1 = key) with
  | some p => p.2
  | none => []

/-- `SimulationResult.mean(key)`. -/
def SimulationResult.mean (res : SimulationResult) (key : String) : ℚ :=
  let values := res.values key
  if values = [] then 0 else values.sum / (values.length : ℚ)

/-- `SimulationResult.percentile(key, pct)`: sort the recorded values and
index at `int(len * pct / 100)` clamped to the last index (nearest-rank,
no interpolation).  `pct` is a float in the source but `summary` only ever
passes 0, 25, 50, 75 and 100, for which `int` truncation is exactly `ℕ`
floor division. -/
def SimulationResult.percentile (res : SimulationResult) (key : String)
    (pct : ℕ) : ℚ :=
  let values := (res.values key).mergeSort (fun a b => decide (a ≤ b))
  if values = [] then 0
  else values.getD (min (values.length * pct / 100) (values.length - 1)) 0

/-- One row of `SimulationResult.summary()`. -/
structure MetricSummary where
  mean : ℚ
  min : ℚ
  p25 : ℚ
  median : ℚ
  p75 : ℚ
  max : ℚ
deriving DecidableEq, Repr

/-- `SimulationResult.summary()`. -/
def SimulationResult.summary (res : SimulationResult) :
    List (String × MetricSummary) :=
  res.outcomes.map (fun p =>
    (p.1,
      { mean := res.mean p.1, min := res.percentile p.1 0,
        p25 := res.percentile p.1 25, median := res.percentile p.1 50,
        p75 := res.percentile p.1 75, max := res.percentile p.1 100 }))

/-- Nearest-rank percentiles of one metric are monotone in the rank. -/
theorem percentile_mono (res : SimulationResult) (key : String) (p q : ℕ)
    (hpq : p ≤ q) (hne : res.values key ≠ []) :
    res.percentile key p ≤ res.percentile key q := by
  simp only [SimulationResult.percentile]
  set s := (res.values key).mergeSort (fun a b => decide (a ≤ b)) with hs
  have hslen : s.length = (res.values key).length := by
    rw [hs]
    exact List.length_mergeSort _
  have hsne : s ≠ [] := by
    intro h0
    apply hne
    rw [h0] at hslen
    exact List.length_eq_zero.mp hslen.symm
  rw [if_neg hsne, if_neg hsne]
  have hlpos : 0 < s.length := List.length_pos.mpr hsne
  have hdiv : s.length * p / 100 ≤ s.length * q / 100 :=
    Nat.div_le_div_right (Nat.mul_le_mul_left _ hpq)
  have hi : min (s.length * p / 100) (s.length - 1) < s.length := by omega
  have hj : min (s.length * q / 100) (s.length - 1) < s.length := by omega
  rw [List.getD_eq_get s 0 hi, List.getD_eq_get s 0 hj]
  exact List.Sorted.rel_get_of_le (List.sorted_mergeSort' _)
    (show (⟨_, hi⟩ : Fin s.length) ≤ ⟨_, hj⟩ by
      simp only [Fin.mk_le_mk]
      omega)

/-- `C9`: for a metric with at least one recorded value, the summary's
nearest-rank percentiles are ordered: `min ≤ p25 ≤ median ≤ p75 ≤ max`. -/
theorem C9_summary_percentiles_monotone (res : SimulationResult)
    (key : String) (st : MetricSummary) (hmem : (key, st) ∈ res.summary)
    (hne : res.values key ≠ []) :
    st.min ≤ st.p25 ∧ st.p25 ≤ st.median ∧ st.median ≤ st.p75 ∧
      st.p75 ≤ st.max := by
  rcases List.mem_map.mp hmem with ⟨p, hp, hpe⟩
  injection hpe with h1 h2
  subst h1
  subst h2
  exact ⟨percentile_mono res p.1 0 25 (by norm_num) hne,
    percentile_mono res p.1 25 50 (by norm_num) hne,
    percentile_mono res p.1 50 75 (by norm_num) hne,
    percentile_mono res p.1 75 100 (by norm_num) hne⟩

/-- Witness for `C9`: two recorded damage values 3 and 1. -/
theorem C9_percentiles_witness :
    { runs := 2, outcomes := [("dmg", [3, 1])] : SimulationResult
      }.percentile "dmg" 25
      ≤ SimulationResult.percentile
          { runs := 2, outcomes := [("dmg", [3, 1])] } "dmg" 50 := by
  have h := C9_summary_percentiles_monotone
    { runs := 2, outcomes := [("dmg", [3, 1])] } "dmg"
    { mean := 2, min := 1, p25 := 1, median := 3, p75 := 3, max := 3 }
    (by
      simp [SimulationResult.summary, SimulationResult.mean,
        SimulationResult.values, SimulationResult.percentile, List.find?,
        List.mergeSort, List.merge]
      norm_num)
    (by simp [SimulationResult.values, List.find?])
  have h25 : SimulationResult.percentile
      { runs := 2, outcomes := [("dmg", [3, 1])] } "dmg" 25 = 1 := by
    simp [SimulationResult.percentile, SimulationResult.values, List.find?,
      List.mergeSort, List.merge]
  have h50 : SimulationResult.percentile
      { runs := 2, outcomes := [("dmg", [3, 1])] } "dmg" 50 = 3 := by
    simp [SimulationResult.percentile, SimulationResult.values, List.find?,
      List.mergeSort, List.merge]
  rw [h25, h50]
  exact h.2.1

end StS
